import Mathlib

/-!
# Verification of the diff-to-comment review pipeline (`src/main.ts`)

A shallow embedding of the single-source TypeScript GitHub action that
reviews pull-request diffs with a language model.  Pure functions of the
source are translated into Lean functions; the external capabilities the
source calls (the completion API, `JSON.parse`, the `minimatch` library,
the hosting platform) are modelled as explicit parameters or, where a
claim needs concrete behaviour, as clearly documented models.

JavaScript strings are modelled as Lean `String` (exact code points;
UTF-16 surrogate details are not needed by any property below), and
JavaScript numbers as exact rationals `ℚ` where a finite value exists
and `Option.none` where the JavaScript result is `NaN` or `±Infinity`.
-/

/-! ## JavaScript string and number primitives used by the source -/

/-- The character set removed by JavaScript `String.prototype.trim`
(ECMAScript WhiteSpace plus LineTerminator). -/
def isJsWhitespace (c : Char) : Bool :=
  c.toNat = 9 || c.toNat = 10 || c.toNat = 11 || c.toNat = 12 ||
  c.toNat = 13 || c.toNat = 32 || c.toNat = 160 || c.toNat = 0x1680 ||
  (0x2000 ≤ c.toNat && c.toNat ≤ 0x200A) || c.toNat = 0x2028 ||
  c.toNat = 0x2029 || c.toNat = 0x202F || c.toNat = 0x205F ||
  c.toNat = 0x3000 || c.toNat = 0xFEFF

/-- Remove leading and trailing JavaScript whitespace from a character list. -/
def trimChars (l : List Char) : List Char :=
  ((l.dropWhile isJsWhitespace).reverse.dropWhile isJsWhitespace).reverse

/-- JavaScript `s.trim()`. -/
def jsTrim (s : String) : String :=
  ⟨trimChars s.data⟩

/-- The Hangul-syllable block U+AC00–U+D7A3, i.e. the regex `/[가-힣]/`. -/
def isHangulSyllable (c : Char) : Bool :=
  0xAC00 ≤ c.toNat && c.toNat ≤ 0xD7A3

/-- Function `hasHangul` from the source: `/[가-힣]/.test(text)`. -/
def hasHangul (text : String) : Bool :=
  text.data.any isHangulSyllable

/-- Value of a list of decimal digits. -/
def digitsVal (l : List Char) : ℕ :=
  l.foldl (fun a c => a * 10 + (c.toNat - 48)) 0

/-- Value of a list of digits in base `b` (hex digits allowed). -/
def radixVal (b : ℕ) (l : List Char) : ℕ :=
  l.foldl (fun a c =>
    a * b + (if c.toNat ≥ 97 then c.toNat - 87
             else if c.toNat ≥ 65 then c.toNat - 55
             else c.toNat - 48)) 0

/-- Is `c` a digit of base `b` (`b` one of 2, 8, 10, 16)? -/
def isRadixDigit (b : ℕ) (c : Char) : Bool :=
  if b = 16 then
    c.isDigit || ('a' ≤ c && c ≤ 'f') || ('A' ≤ c && c ≤ 'F')
  else
    48 ≤ c.toNat && c.toNat < 48 + b

/-- Parse the exponent part following `e`/`E` in a JavaScript decimal
literal: optional sign, then one or more digits. -/
def parseExpPart (l : List Char) : Option ℤ :=
  match l with
  | '+' :: r => if r ≠ [] ∧ r.all Char.isDigit then some (digitsVal r) else none
  | '-' :: r => if r ≠ [] ∧ r.all Char.isDigit then some (-(digitsVal r : ℤ)) else none
  | r => if r ≠ [] ∧ r.all Char.isDigit then some (digitsVal r) else none

/-- The exact rational `(n / d) * 10 ^ k`, built with `mkRat` so that it
evaluates by kernel reduction. -/
def scaleByPow10 (n : ℤ) (d : ℕ) (k : ℤ) : ℚ :=
  if 0 ≤ k then mkRat (n * (10 : ℤ) ^ k.toNat) d
  else mkRat n (d * 10 ^ (-k).toNat)

/-- Parse an unsigned JavaScript decimal literal (`digits [. digits] [exp]`
or `. digits [exp]`), consuming the whole list; `none` is `NaN`.  The value
is the exact rational the literal denotes. -/
def parseDecimal (l : List Char) : Option ℚ :=
  let ip := l.takeWhile Char.isDigit
  let r1 := l.dropWhile Char.isDigit
  match r1 with
  | [] => if ip = [] then none else some (mkRat (digitsVal ip) 1)
  | '.' :: r2 =>
      let fp := r2.takeWhile Char.isDigit
      let r3 := r2.dropWhile Char.isDigit
      if ip = [] ∧ fp = [] then none
      else
        let num : ℤ := digitsVal ip * 10 ^ fp.length + digitsVal fp
        let den : ℕ := 10 ^ fp.length
        match r3 with
        | [] => some (mkRat num den)
        | e :: r4 =>
            if e = 'e' ∨ e = 'E' then
              (parseExpPart r4).map (scaleByPow10 num den)
            else none
  | e :: r4 =>
      if (e = 'e' ∨ e = 'E') ∧ ip ≠ [] then
        (parseExpPart r4).map (scaleByPow10 (digitsVal ip) 1)
      else none

/-- Parse an unsigned JavaScript numeric literal after trimming: decimal,
`0x`/`0o`/`0b` forms, or `Infinity` (which is not finite, hence `none`). -/
def parseUnsignedNum (l : List Char) : Option ℚ :=
  if l = "Infinity".data then none
  else
    match l with
    | '0' :: x :: r =>
        if x = 'x' ∨ x = 'X' then
          if r ≠ [] ∧ r.all (isRadixDigit 16) then some (mkRat (radixVal 16 r) 1) else none
        else if x = 'o' ∨ x = 'O' then
          if r ≠ [] ∧ r.all (isRadixDigit 8) then some (mkRat (radixVal 8 r) 1) else none
        else if x = 'b' ∨ x = 'B' then
          if r ≠ [] ∧ r.all (isRadixDigit 2) then some (mkRat (radixVal 2 r) 1) else none
        else parseDecimal l
    | _ => parseDecimal l

/-- A signed literal: sign applies only to the decimal / `Infinity` forms,
as in ECMAScript `StrNumericLiteral`. -/
def parseSignedNum (l : List Char) : Option ℚ :=
  match l with
  | '+' :: r => if r = "Infinity".data then none else parseDecimal r
  | '-' :: r => if r = "Infinity".data then none else (parseDecimal r).map Neg.neg
  | _ => parseUnsignedNum l

/-- Exact-rational model of JavaScript `Number(string)` (ECMAScript
`StringToNumber`): whitespace is trimmed, the empty string is `0`, and a
full numeric literal must remain.  `none` stands for a non-finite result
(`NaN` or `±Infinity`); float rounding and overflow are not modelled, so
finite values are exact rationals. -/
def jsToNumber (s : String) : Option ℚ :=
  let t := trimChars s.data
  if t = [] then some 0 else parseSignedNum t

/-- Model of JavaScript `parseInt(raw, 10)`: skip leading whitespace, read
an optional sign and then the longest prefix of decimal digits; `none` is
`NaN` (no digits). -/
def jsParseInt10 (s : String) : Option ℤ :=
  let l := s.data.dropWhile isJsWhitespace
  match l with
  | '-' :: r =>
      let ds := r.takeWhile Char.isDigit
      if ds = [] then none else some (-(digitsVal ds : ℤ))
  | '+' :: r =>
      let ds := r.takeWhile Char.isDigit
      if ds = [] then none else some (digitsVal ds)
  | r =>
      let ds := r.takeWhile Char.isDigit
      if ds = [] then none else some (digitsVal ds)

/-- JavaScript string interpolation of a possibly-undefinedined string
(`${file.to}` renders `undefinedined` when the field is absent). -/
def jsShowOptString : Option String → String
  | some s => s
  | none => "undefinedined"

/-- JavaScript `text.slice(0, n)` for `n ≥ 0`. -/
def jsSlice (text : String) (n : ℕ) : String :=
  ⟨text.data.take n⟩

/-! ## Configuration: `MAX_PR_DESCRIPTION_CHARS` -/

/-- The module-level constant of the source, as a function of the raw
action input (`core.getInput` yields `""` when the input is absent):

```ts
const raw = core.getInput("MAX_PR_DESCRIPTION_CHARS") || "1500";
const n = Number.parseInt(raw, 10);
return Number.isFinite(n) && n >= 0 ? n : 1500;
``` -/
def maxPrDescriptionChars (input : String) : ℤ :=
  let raw := if input = "" then "1500" else input
  match jsParseInt10 raw with
  | some n => if 0 ≤ n then n else 1500
  | none => 1500

/-! ## `truncate` -/

/-- The truncation marker appended by `truncate`. -/
def truncMarker : String := "\n...(truncated)"

/-- Function `truncate(text, maxChars)` from the source:

```ts
if (!text) return "";
if (maxChars <= 0) return "";
return text.length > maxChars ? text.slice(0, maxChars) + "\n...(truncated)" : text;
``` -/
def truncate (text : String) (maxChars : ℤ) : String :=
  if text = "" then ""
  else if maxChars ≤ 0 then ""
  else if (text.length : ℤ) > maxChars then
    jsSlice text maxChars.toNat ++ truncMarker
  else text

/-! ## Data model

Mirrors the TypeScript interfaces and the `parse-diff` shapes the source
consumes (`File.to` is the nullable target path, `Chunk.content` the hunk
header/raw text, each change carrying optional old/new line numbers). -/

/-- Interface `PRDetails` from the source. -/
structure PRDetails where
  owner : String
  repo : String
  pull_number : ℕ
  title : String
  description : String
deriving DecidableEq, Repr

/-- Type `RulesBundle` from the source. -/
structure RulesBundle where
  commonRules : String
  repoRules : String
deriving DecidableEq, Repr

/-- One line record of a `parse-diff` chunk; `ln` is the single line
number of add/delete changes, `ln2` the new-file number of context
changes (the source reads `c.ln2 ?? c.ln ?? ""`). -/
structure DiffChange where
  ln : Option ℕ
  ln2 : Option ℕ
  content : String
deriving DecidableEq, Repr

/-- One hunk of a parsed diff file. -/
structure DiffChunk where
  content : String
  changes : List DiffChange
deriving DecidableEq, Repr

/-- One file entry of a parsed diff; `to` is `undefinedined` for some inputs
and `"/dev/null"` for deletions. -/
structure DiffFile where
  «to» : Option String
  chunks : List DiffChunk
deriving DecidableEq, Repr

/-- A raw model review unit, as typed in the source:
`{ lineNumber: string; reviewComment: string }`. -/
structure ReviewItem where
  lineNumber : String
  reviewComment : String
deriving DecidableEq, Repr

/-- A placement-ready review comment `{ body, path, line }`; the line is a
JavaScript number, modelled as an exact rational. -/
structure CommentRecord where
  body : String
  path : String
  line : ℚ
deriving DecidableEq, Repr

/-! ## JSON values

`JSON.parse` is an external runtime capability; what the source owns is
only how it consumes the parsed value.  `JValue` is the type of decoded
JavaScript values, `jsGet` the optional-chaining field access
`parsed?.field` (yielding `undefinedined` on a missing field or a non-object),
and the parser itself stays an explicit parameter of type
`String → Option JValue` (with `none` standing for a thrown `SyntaxError`). -/

inductive JValue where
  | undefined : JValue
  | null : JValue
  | bool : Bool → JValue
  | num : ℚ → JValue
  | str : String → JValue
  | arr : List JValue → JValue
  | obj : List (String × JValue) → JValue
deriving Inhabited

/-- Optional-chaining field access `v?.key`. -/
def jsGet (v : JValue) (key : String) : JValue :=
  match v with
  | .obj fields => (((fields.find? (fun kv => kv.1 = key)).map Prod.snd).getD .undefined)
  | _ => .undefined

/-! ## Prompt construction -/

/-- The fixed preamble of the system prompt, up to the priority line. -/
def sysPre : String :=
  "당신은 QESG GitHub PR 코드리뷰 봇입니다. 모든 리뷰 코멘트는 반드시 **한국어**로 작성합니다.\n\n규칙 우선순위:\n"

/-- The priority line used when repo-specific rules are present. -/
def prioOverride : String :=
  "- 공통 가이드라인과 레포 특화 규칙이 충돌하면 **레포 특화 규칙이 우선(override)** 입니다."

/-- The priority line used when repo-specific rules are absent. -/
def prioCommonOnly : String :=
  "- 레포 특화 규칙이 없으므로 **공통 가이드라인만 적용**합니다."

/-- The literal between the priority line and the common-rules text. -/
def sysMid : String :=
  "\n\n[공통 가이드라인]\n---\n"

/-- The header line identifying the repo-rules block. -/
def repoHeader : String := "[레포 특화 규칙]"

/-- The closing literal of the template: the three-dash fence after the
common rules, then (after the repo section, if any) the output contract. -/
def sysPost : String :=
  "작성 규칙:\n- 반드시 아래 JSON만 출력: \x7b\"reviews\":[\x7b\"lineNumber\":<number>,\"reviewComment\":\"<markdown, 한국어>\"\x7d]\x7d\n- 공통규칙/레포 규칙 위반이 있으면 반드시 지적.\n- 칭찬/긍정 코멘트 금지.\n- 개선점이 없으면 reviews는 빈 배열([])로 반환.\n- 각 리뷰는 반드시 diff의 특정 라인을 근거로 하며, 근거 없는 일반론은 금지.\n- **코드에 주석 추가를 제안하지 않음.**\n- lineNumber는 가능한 한 **새 파일 기준(추가/수정된 라인)** 번호로 지정."

/-- Function `createSystemPrompt(rules)` from the source:

```ts
const common = rules.commonRules || "(none)";
const hasRepoRules = Boolean(rules.repoRules && rules.repoRules.trim().length > 0);
const repoSection = hasRepoRules ? `\n[레포 특화 규칙]\n---\n${rules.repoRules.trim()}\n---\n` : "";
const priorityLine = hasRepoRules ? ...override... : ...common-only...;
return `...${priorityLine}...[공통 가이드라인]\n---\n${common}\n---\n${repoSection}작성 규칙: ...`;
``` -/
def createSystemPrompt (rules : RulesBundle) : String :=
  let common := if rules.commonRules = "" then "(none)" else rules.commonRules
  let hasRepoRules : Bool := rules.repoRules ≠ "" && jsTrim rules.repoRules ≠ ""
  let repoSection :=
    if hasRepoRules then "\n" ++ repoHeader ++ "\n---\n" ++ jsTrim rules.repoRules ++ "\n---\n"
    else ""
  let priorityLine := if hasRepoRules then prioOverride else prioCommonOnly
  sysPre ++ priorityLine ++ sysMid ++ common ++ "\n---\n" ++ repoSection ++ sysPost

/-- The per-change listing line `${c.ln2 ?? c.ln ?? ""} ${c.content}`. -/
def changeLine (c : DiffChange) : String :=
  (match c.ln2 with
   | some n => toString n
   | none => match c.ln with
     | some n => toString n
     | none => "") ++ " " ++ c.content

/-- Function `createUserPrompt(file, chunk, prDetails)` from the source.  The
module-level `MAX_PR_DESCRIPTION_CHARS` is threaded in as `maxChars`. -/
def createUserPrompt (maxChars : ℤ) (file : DiffFile) (chunk : DiffChunk)
    (prDetails : PRDetails) : String :=
  let desc := truncate prDetails.description maxChars
  "다음 PR 정보를 참고해서, 아래 diff를 리뷰해줘.\n\nPR 제목: " ++ prDetails.title ++
  "\nPR 설명:\n---\n" ++ (if desc = "" then "(생략)" else desc) ++
  "\n---\n\n대상 파일: " ++ jsShowOptString file.to ++
  "\n\ndiff:\n```diff\n" ++ chunk.content ++ "\n" ++
  String.intercalate "\n" (chunk.changes.map changeLine) ++
  "\n```\n\n※ 출력은 반드시 한국어로만 작성하세요.\n"

/-! ## Review validation and the model-call layer -/

/-- Function `allKoreanOrEmpty(reviews)` from the source: every comment, once
coerced (`String(r.reviewComment || "")`) and trimmed, is either empty or
contains a Hangul syllable. -/
def allKoreanOrEmpty (reviews : List ReviewItem) : Bool :=
  reviews.all (fun r =>
    let c := jsTrim r.reviewComment
    if c = "" then true else hasHangul c)

/-- Function `safeParseReviews(raw)` from the source:

```ts
try { const parsed = JSON.parse(raw);
      if (Array.isArray(parsed?.reviews)) return parsed.reviews;
      return []; }
catch { return []; }
```

`parse` models `JSON.parse` (`none` = thrown `SyntaxError`, recovered
here as `[]`), and `decode` models the unchecked TypeScript cast of each
array element to `{ lineNumber: string; reviewComment: string }`. -/
def safeParseReviews (parse : String → Option JValue) (decode : JValue → ReviewItem)
    (raw : String) : List ReviewItem :=
  match parse raw with
  | none => []
  | some parsed =>
      match jsGet parsed "reviews" with
      | .arr xs => xs.map decode
      | _ => []

/-- Function `callOpenAIOnce(systemPrompt, userPrompt)` from the source.  The
external completion request is the parameter `completions`, returning the
optional message content (`.error` = a thrown transport/API error, which
propagates to the caller here); the source then computes
`response.choices[0].message?.content?.trim() || "{}"` and parses it. -/
def callOpenAIOnce (completions : String → String → Except Unit (Option String))
    (parse : String → Option JValue) (decode : JValue → ReviewItem)
    (systemPrompt userPrompt : String) : Except Unit (List ReviewItem) :=
  match completions systemPrompt userPrompt with
  | .error e => .error e
  | .ok content =>
      let res :=
        match content.map jsTrim with
        | some t => if t = "" then "\x7b\x7d" else t
        | none => "\x7b\x7d"
      .ok (safeParseReviews parse decode res)

/-- The stricter clause appended to the system prompt for the single
language-compliance retry. -/
def stricterSuffix : String :=
  "\n\n[추가 강제 규칙]\n- reviewComment는 반드시 한국어 문장만 사용한다.\n- 영어 문장 작성은 금지한다. 필요하면 한국어로 풀어서 설명한다.\n"

/-- Function `getAIResponse(systemPrompt, userPrompt)` from the source: one call,
one bounded retry with the stricter system prompt when the first result
fails `allKoreanOrEmpty`, and `null` when either call throws.  The second
component is the transcript of completion calls actually issued (ghost
instrumentation used to state call-count properties; the first component
is exactly the source's return value). -/
def getAIResponse (completions : String → String → Except Unit (Option String))
    (parse : String → Option JValue) (decode : JValue → ReviewItem)
    (systemPrompt userPrompt : String) :
    Option (List ReviewItem) × List (String × String) :=
  match callOpenAIOnce completions parse decode systemPrompt userPrompt with
  | .error _ => (none, [(systemPrompt, userPrompt)])
  | .ok reviews =>
      if allKoreanOrEmpty reviews then (some reviews, [(systemPrompt, userPrompt)])
      else
        let stricterSystem := systemPrompt ++ stricterSuffix
        match callOpenAIOnce completions parse decode stricterSystem userPrompt with
        | .error _ => (none, [(systemPrompt, userPrompt), (stricterSystem, userPrompt)])
        | .ok reviews2 =>
            (some reviews2, [(systemPrompt, userPrompt), (stricterSystem, userPrompt)])

/-! ## Comment mapping and the per-chunk loop -/

/-- Function `createComment(file, aiResponses)` from the source:

```ts
if (!file.to) return [];
return aiResponses.flatMap((aiResponse) => {
  const line = Number(aiResponse.lineNumber);
  if (!Number.isFinite(line) || line <= 0) return [];
  return { body: aiResponse.reviewComment, path: file.to!, line };
});
``` -/
def createComment (file : DiffFile) (aiResponses : List ReviewItem) : List CommentRecord :=
  if file.to.getD "" = "" then []
  else
    aiResponses.flatMap (fun aiResponse =>
      match jsToNumber aiResponse.lineNumber with
      | none => []
      | some line =>
          if line ≤ 0 then []
          else [{ body := aiResponse.reviewComment, path := file.to.getD "", line := line }])

/-- The inner `for (const chunk of file.chunks)` loop of `analyzeCode`. -/
def analyzeChunks (completions : String → String → Except Unit (Option String))
    (parse : String → Option JValue) (decode : JValue → ReviewItem)
    (maxChars : ℤ) (systemPrompt : String) (prDetails : PRDetails) (file : DiffFile) :
    List DiffChunk → List CommentRecord
  | [] => []
  | chunk :: rest =>
      let userPrompt := createUserPrompt maxChars file chunk prDetails
      let newComments :=
        match (getAIResponse completions parse decode systemPrompt userPrompt).1 with
        | none => []
        | some aiResponse => createComment file aiResponse
      newComments ++ analyzeChunks completions parse decode maxChars systemPrompt prDetails file rest

/-- The outer `for (const file of parsedDiff)` loop of `analyzeCode`,
skipping deleted files (`file.to === "/dev/null"`). -/
def analyzeFiles (completions : String → String → Except Unit (Option String))
    (parse : String → Option JValue) (decode : JValue → ReviewItem)
    (maxChars : ℤ) (systemPrompt : String) (prDetails : PRDetails) :
    List DiffFile → List CommentRecord
  | [] => []
  | file :: rest =>
      (if file.to = some "/dev/null" then []
       else analyzeChunks completions parse decode maxChars systemPrompt prDetails file file.chunks) ++
      analyzeFiles completions parse decode maxChars systemPrompt prDetails rest

/-- Function `analyzeCode(parsedDiff, prDetails, rules)` from the source: build the
system prompt once, then accumulate the comments of every retained file
and chunk in diff order. -/
def analyzeCode (completions : String → String → Except Unit (Option String))
    (parse : String → Option JValue) (decode : JValue → ReviewItem)
    (maxChars : ℤ) (parsedDiff : List DiffFile) (prDetails : PRDetails)
    (rules : RulesBundle) : List CommentRecord :=
  analyzeFiles completions parse decode maxChars (createSystemPrompt rules) prDetails parsedDiff

/-! ## Exclusion filtering -/

/-- Modelled from the spec: the external `minimatch` library (not part of
this repository) as a glob matcher over pattern and path — literal
characters, `?` for one non-separator character, and `*` for any run of
non-separator characters, matching minimatch's default single-segment
semantics for the patterns the spec discusses. -/
def globMatch : List Char → List Char → Bool
  | [], [] => true
  | [], _ :: _ => false
  | '*' :: ps, [] => globMatch ps []
  | '*' :: ps, c :: cs =>
      globMatch ps (c :: cs) || (c ≠ '/' && globMatch ('*' :: ps) cs)
  | '?' :: ps, c :: cs => c ≠ '/' && globMatch ps cs
  | '?' :: _, [] => false
  | p :: ps, c :: cs => p = c && globMatch ps cs
  | _ :: _, [] => false
termination_by ps cs => (cs.length, ps.length)

/-- Call shape `minimatch(filePath, pattern)` as used by the source. -/
def minimatch (filePath pattern : String) : Bool :=
  globMatch pattern.data filePath.data

/-- The `filteredDiff` computation of `main()`:

```ts
const filteredDiff = parsedDiff.filter((file) => {
  const filePath = file.to ?? "";
  if (!filePath) return false;
  return !excludePatterns.some((pattern) => minimatch(filePath, pattern));
});
``` -/
def filteredDiff (excludePatterns : List String) (parsedDiff : List DiffFile) :
    List DiffFile :=
  parsedDiff.filter (fun file =>
    let filePath := file.to.getD ""
    if filePath = "" then false
    else !(excludePatterns.any (fun pattern => minimatch filePath pattern)))

/-! ## Counting substring occurrences

Used to state that a prompt contains a given block exactly once (or not
at all): `countOcc p l` counts the positions of `l` at which the pattern
`p` occurs as a contiguous run. -/

/-- Number of positions of `l` at which `p` occurs as a contiguous
substring. -/
def countOcc (p : List Char) : List Char → ℕ
  | [] => 0
  | c :: rest => (if p.isPrefixOf (c :: rest) then 1 else 0) + countOcc p rest

/-- Check that no nonempty suffix of `g` is a strictly shorter prefix of
`p`; an occurrence of `p` in `g ++ t` then never straddles the boundary. -/
def noStraddle (p g : List Char) : Bool :=
  g.tails.all (fun s => s.isEmpty || !(s.isPrefixOf p && decide (s.length < p.length)))

theorem noStraddle_cons (p : List Char) (c : Char) (g : List Char)
    (h : noStraddle p (c :: g) = true) : noStraddle p g = true := by
  simp only [noStraddle, List.tails_cons, List.all_cons, Bool.and_eq_true] at h
  exact h.2

theorem countOcc_append_of_noStraddle (p t : List Char) (g : List Char)
    (h : noStraddle p g = true) :
    countOcc p (g ++ t) = countOcc p g + countOcc p t := by
  induction g with
  | nil => simp [countOcc]
  | cons c g' ih =>
      have hg' := noStraddle_cons p c g' h
      have e1 : p.isPrefixOf (c :: (g' ++ t)) = p.isPrefixOf (c :: g') := by
        rw [Bool.eq_iff_iff, List.isPrefixOf_iff_prefix, List.isPrefixOf_iff_prefix]
        constructor
        · intro h1
          have h1' : p <+: (c :: g') ++ t := by simpa using h1
          rcases List.prefix_or_prefix_of_prefix h1'
              ( List.prefix_append (c :: g') t) with h2 | h2
          · exact h2
          · rcases Nat.lt_or_ge (c :: g').length p.length with hlt | hge
            · exfalso
              have hmem : (c :: g') ∈ (c :: g').tails :=
                (List.mem_tails _ _).mpr (List.suffix_refl _)
              have := (List.all_eq_true.mp h) _ hmem
              simp only [List.isEmpty_cons, Bool.false_or, Bool.not_eq_true',
                Bool.and_eq_false_iff] at this
              rcases this with h3 | h3
              · have h4 := List.isPrefixOf_iff_prefix.mpr h2
                rw [h3] at h4
                cases h4
              · simp only [List.length_cons, decide_eq_false_iff_not, Nat.not_lt] at hlt h3
                omega
            · have : (c :: g') = p :=
                List.IsPrefix.eq_of_length h2 (Nat.le_antisymm (List.IsPrefix.length_le h2) hge)
              exact this ▸ List.prefix_refl _
        · intro h1
          have := h1.trans ( List.prefix_append (c :: g') t)
          simpa using this
      show (if p.isPrefixOf (c :: (g' ++ t)) then 1 else 0) + countOcc p (g' ++ t) = _
      rw [e1, ih hg', countOcc]
      omega

/-- Occurrences never start inside `v` when `v` is followed by text whose
first character appears nowhere in `p` after its head. -/
theorem countOcc_append_of_head_notin (p v t : List Char) (hc : Char)
    (ht : t.head? = some hc) (hp : hc ∉ p.drop 1) :
    countOcc p (v ++ t) = countOcc p v + countOcc p t := by
  induction v with
  | nil => simp [countOcc]
  | cons c v' ih =>
      have e1 : p.isPrefixOf (c :: (v' ++ t)) = p.isPrefixOf (c :: v') := by
        rw [Bool.eq_iff_iff, List.isPrefixOf_iff_prefix, List.isPrefixOf_iff_prefix]
        constructor
        · intro h1
          have h1' : p <+: (c :: v') ++ t := by simpa using h1
          rcases List.prefix_or_prefix_of_prefix h1'
              ( List.prefix_append (c :: v') t) with h2 | h2
          · exact h2
          · obtain ⟨r, hr⟩ := h2
            rcases r with _ | ⟨rc, rr⟩
            · simp only [List.append_nil] at hr
              exact hr ▸ List.prefix_refl _
            · exfalso
              have hrt : (rc :: rr) <+: t := by
                have : (c :: v') ++ (rc :: rr) <+: (c :: v') ++ t := hr ▸ h1'
                exact ( List.prefix_append_right_inj (c :: v')).mp this
              have hrc : rc = hc := by
                obtain ⟨u, hu⟩ := hrt
                rw [← hu] at ht
                simpa using ht
              have : hc ∈ p.drop 1 := by
                rw [← hr]
                simp [hrc]
              exact hp this
        · intro h1
          have := h1.trans ( List.prefix_append (c :: v') t)
          simpa using this
      show (if p.isPrefixOf (c :: (v' ++ t)) then 1 else 0) + countOcc p (v' ++ t) = _
      rw [e1, ih, countOcc]
      omega

theorem countOcc_eq_zero_of_not_infix (p l : List Char) (h : ¬ p <:+: l) :
    countOcc p l = 0 := by
  induction l with
  | nil => simp [countOcc]
  | cons c rest ih =>
      have h1 : p.isPrefixOf (c :: rest) = false := by
        rw [← Bool.not_eq_true, List.isPrefixOf_iff_prefix]
        exact fun hp => h ( List.IsPrefix.isInfix hp)
      have h2 : ¬ p <:+: rest := fun hi => h ( List.infix_cons hi)
      simp [countOcc, h1, ih h2]

/-! ## Trimming preserves Hangul detection -/

theorem mem_dropWhile_of_neg (p : Char → Bool) (l : List Char) (x : Char)
    (hx : x ∈ l) (hpx : p x = false) : x ∈ l.dropWhile p := by
  induction l with
  | nil => cases hx
  | cons a t ih =>
      cases ha : p a with
      | true =>
          rw [List.dropWhile_cons_of_pos ha]
          rcases List.mem_cons.mp hx with h | h
          · subst h; rw [hpx] at ha; cases ha
          · exact ih h
      | false =>
          rw [List.dropWhile_cons_of_neg (by simp [ha])]
          exact hx

theorem mem_trimChars_of_not_ws (l : List Char) (c : Char) (hc : c ∈ l)
    (hw : isJsWhitespace c = false) : c ∈ trimChars l := by
  unfold trimChars
  rw [List.mem_reverse]
  apply mem_dropWhile_of_neg _ _ _ _ hw
  rw [List.mem_reverse]
  exact mem_dropWhile_of_neg _ _ _ hc hw

theorem trimChars_subset (l : List Char) (c : Char) (hc : c ∈ trimChars l) : c ∈ l := by
  unfold trimChars at hc
  rw [List.mem_reverse] at hc
  have h1 := List.Sublist.subset (List.dropWhile_sublist isJsWhitespace) hc
  rw [List.mem_reverse] at h1
  exact List.Sublist.subset (List.dropWhile_sublist isJsWhitespace) h1

theorem isHangul_not_ws (c : Char) (h : isHangulSyllable c = true) :
    isJsWhitespace c = false := by
  unfold isHangulSyllable at h
  unfold isJsWhitespace
  simp only [Bool.and_eq_true, decide_eq_true_eq] at h
  simp only [Bool.or_eq_false_iff, Bool.and_eq_false_iff, decide_eq_false_iff_not]
  omega

theorem hasHangul_jsTrim (s : String) : hasHangul (jsTrim s) = hasHangul s := by
  rw [Bool.eq_iff_iff]
  unfold hasHangul jsTrim
  simp only [List.any_eq_true]
  constructor
  · rintro ⟨c, hc, hh⟩
    exact ⟨c, trimChars_subset _ _ hc, hh⟩
  · rintro ⟨c, hc, hh⟩
    exact ⟨c, mem_trimChars_of_not_ws _ _ hc (isHangul_not_ws c hh), hh⟩

/-! ## Characterizing the language check -/

theorem allKoreanOrEmpty_eq_false_iff (reviews : List ReviewItem) :
    allKoreanOrEmpty reviews = false ↔
      ∃ r ∈ reviews, jsTrim r.reviewComment ≠ "" ∧ hasHangul r.reviewComment = false := by
  unfold allKoreanOrEmpty
  rw [List.all_eq_false]
  constructor
  · rintro ⟨r, hr, hfail⟩
    refine ⟨r, hr, ?_⟩
    by_cases he : jsTrim r.reviewComment = ""
    · simp [he] at hfail
    · simp only [he, if_neg he, Bool.not_eq_true] at hfail
      exact ⟨he, (hasHangul_jsTrim r.reviewComment) ▸ hfail⟩
  · rintro ⟨r, hr, he, hh⟩
    refine ⟨r, hr, ?_⟩
    have := (hasHangul_jsTrim r.reviewComment).trans hh
    simp [he, this]

theorem allKoreanOrEmpty_eq_true_iff (reviews : List ReviewItem) :
    allKoreanOrEmpty reviews = true ↔
      ∀ r ∈ reviews, jsTrim r.reviewComment = "" ∨ hasHangul r.reviewComment = true := by
  unfold allKoreanOrEmpty
  rw [List.all_eq_true]
  refine forall_congr' fun r => ?_
  constructor
  · intro h hr
    by_cases he : jsTrim r.reviewComment = ""
    · exact Or.inl he
    · right
      have := h hr
      simp only [if_neg he] at this
      exact (hasHangul_jsTrim r.reviewComment) ▸ this
  · intro h hr
    rcases h hr with he | hh
    · simp [he]
    · have := (hasHangul_jsTrim r.reviewComment).trans hh
      by_cases he : jsTrim r.reviewComment = "" <;> simp [he, this]

/-! ## Claims -/

/-- **C3.**  For every string `text` and integer `max`: `truncate(text, 0)`
returns the empty string; `truncate(text, N)` with `N > 0` and
`len(text) ≤ N` returns `text` unchanged; `truncate(text, N)` with
`N > 0` and `len(text) > N` returns a string of length `N + len(marker)`
that ends in the truncation marker. -/
theorem C3_truncate_spec (text : String) (max : ℤ) :
    truncate text 0 = "" ∧
    (0 < max → (text.length : ℤ) ≤ max → truncate text max = text) ∧
    (0 < max → max < (text.length : ℤ) →
      (truncate text max).length = max.toNat + truncMarker.length ∧
      truncMarker.data <:+ (truncate text max).data) := by
  refine ⟨?_, ?_, ?_⟩
  · unfold truncate
    by_cases h : text = "" <;> simp [h]
  · intro h1 h2
    unfold truncate
    by_cases h : text = ""
    · simp [h]
    · rw [if_neg h, if_neg (show ¬ max ≤ 0 by omega),
        if_neg (show ¬ (text.length : ℤ) > max by omega)]
  · intro h1 h2
    have hlen : max.toNat < text.length := by omega
    have hne : text ≠ "" := by
      intro h
      rw [h] at hlen
      simp [String.length] at hlen
    unfold truncate
    rw [if_neg hne, if_neg (by omega), if_pos (by omega)]
    constructor
    · have hd : text.length = text.data.length := rfl
      have : (jsSlice text max.toNat).length = max.toNat := by
        simp only [jsSlice, String.length, List.length_take]
        omega
      rw [String.length_append, this]
    · rw [String.data_append]
      exact List.suffix_append _ _

/-- Witness for C3 at concrete inputs. -/
theorem C3_witness :
    truncate "hello" 0 = "" ∧ truncate "hello" 9 = "hello" ∧
    (truncate "hello" 3).length = (3 : ℤ).toNat + truncMarker.length ∧
    truncMarker.data <:+ (truncate "hello" 3).data := by
  refine ⟨(C3_truncate_spec "hello" 9).1,
          (C3_truncate_spec "hello" 9).2.1 (by decide) (by decide),
          ((C3_truncate_spec "hello" 3).2.2 (by decide) (by decide)).1,
          ((C3_truncate_spec "hello" 3).2.2 (by decide) (by decide)).2⟩

/-- **C10.**  If the configured `MAX_PR_DESCRIPTION_CHARS` input does not
parse to a finite integer greater than or equal to zero — it is absent
(the empty input), non-numeric, or negative — then the effective maximum
description length is the default 1500. -/
theorem C10_maxPrDescriptionChars_default (input : String)
    (h : input = "" ∨ jsParseInt10 input = none ∨
         ∃ n : ℤ, jsParseInt10 input = some n ∧ n < 0) :
    maxPrDescriptionChars input = 1500 := by
  rcases h with h | h | ⟨n, hn, hneg⟩
  · subst h
    decide
  · by_cases he : input = ""
    · subst he
      decide
    · unfold maxPrDescriptionChars
      simp [he, h]
  · have he : input ≠ "" := by
      intro hemp
      subst hemp
      rw [show jsParseInt10 "" = none from by decide] at hn
      cases hn
    unfold maxPrDescriptionChars
    simp only [if_neg he, hn]
    rw [if_neg (show ¬ (0 ≤ n) by omega)]

/-- Witness for C10: a non-numeric and a negative input both fall back to
the default. -/
theorem C10_witness :
    maxPrDescriptionChars "abc" = 1500 ∧ maxPrDescriptionChars "-5" = 1500 :=
  ⟨C10_maxPrDescriptionChars_default "abc" (Or.inr (Or.inl (by decide))),
   C10_maxPrDescriptionChars_default "-5"
     (Or.inr (Or.inr ⟨-5, by decide, by decide⟩))⟩

/-- A single item maps through `createComment` exactly when its
`lineNumber` parses to a finite strictly-positive number. -/
theorem createComment_singleton (file : DiffFile) (s : String)
    (hto : file.to = some s) (hs : s ≠ "") (it : ReviewItem) :
    createComment file [it] =
      (match jsToNumber it.lineNumber with
       | some q => if 0 < q then [{ body := it.reviewComment, path := s, line := q }] else []
       | none => []) := by
  unfold createComment
  rw [hto]
  simp only [Option.getD_some]
  rw [if_neg hs]
  cases hn : jsToNumber it.lineNumber with
  | none => simp [hn]
  | some q =>
      simp only [List.flatMap_cons, List.flatMap_nil, List.append_nil, hn]
      rcases le_or_lt q 0 with h | h
      · rw [if_pos h, if_neg (not_lt.mpr h)]
      · rw [if_neg (not_le.mpr h), if_pos h]

/-- **C1 (amended).**  For every DiffFile with a present (non-empty)
target path and every list of ReviewItems, `createComment` produces a
CommentRecord for an item if and only if its `lineNumber` string parses
(by JavaScript `Number`) to a finite, strictly-positive number; items
failing this are dropped individually while the remaining items still
produce records.  In particular `{lineNumber: "42"}` yields exactly one
record with line 42, and `{lineNumber: "0"}`, `{lineNumber: "-3"}`,
`{lineNumber: "abc"}` each yield zero records.  (Amended from the claim:
the source checks `Number.isFinite(line) && line > 0` and does not
require the parsed value to be an integer — see `C1_counterexample`.) -/
theorem C1_createComment_parse (file : DiffFile) (s : String)
    (hto : file.to = some s) (hs : s ≠ "") (items1 items2 : List ReviewItem)
    (it : ReviewItem) (body : String) :
    (createComment file [it] =
      (match jsToNumber it.lineNumber with
       | some q => if 0 < q then [{ body := it.reviewComment, path := s, line := q }] else []
       | none => [])) ∧
    (createComment file (items1 ++ items2) =
      createComment file items1 ++ createComment file items2) ∧
    (createComment file [{ lineNumber := "42", reviewComment := body }] =
      [{ body := body, path := s, line := 42 }]) ∧
    (createComment file [{ lineNumber := "0", reviewComment := body }] = []) ∧
    (createComment file [{ lineNumber := "-3", reviewComment := body }] = []) ∧
    (createComment file [{ lineNumber := "abc", reviewComment := body }] = []) := by
  have hgetd : file.to.getD "" = s := by rw [hto]; rfl
  refine ⟨createComment_singleton file s hto hs it, ?_, ?_, ?_, ?_, ?_⟩
  · unfold createComment
    simp only [hgetd, if_neg hs, List.flatMap_append]
  · rw [createComment_singleton file s hto hs _]
    simp only [show jsToNumber "42" = some 42 from by decide]
    rw [if_pos (show (0 : ℚ) < 42 by norm_num)]
  · rw [createComment_singleton file s hto hs _]
    simp only [show jsToNumber "0" = some 0 from by decide]
    rw [if_neg (show ¬ (0 : ℚ) < 0 by norm_num)]
  · rw [createComment_singleton file s hto hs _]
    simp only [show jsToNumber "-3" = some (-3) from by decide]
    rw [if_neg (show ¬ (0 : ℚ) < -3 by norm_num)]
  · rw [createComment_singleton file s hto hs _]
    simp only [show jsToNumber "abc" = none from by decide]

/-- Witness for C1 at a concrete file and items. -/
theorem C1_witness :
    createComment ⟨some "a.ts", []⟩ [{ lineNumber := "42", reviewComment := "수정" }] =
      [{ body := "수정", path := "a.ts", line := 42 }] ∧
    createComment ⟨some "a.ts", []⟩ [{ lineNumber := "abc", reviewComment := "수정" }] = [] :=
  ⟨(C1_createComment_parse ⟨some "a.ts", []⟩ "a.ts" rfl (by decide) [] []
      ⟨"1", "x"⟩ "수정").2.2.1,
   (C1_createComment_parse ⟨some "a.ts", []⟩ "a.ts" rfl (by decide) [] []
      ⟨"1", "x"⟩ "수정").2.2.2.2.2⟩

/-- **C1 counterexample.**  The claim as frozen requires a record exactly
when the `lineNumber` parses to a strictly-positive *integer*; the source
only checks `Number.isFinite(line) && line > 0`, so the non-integer
`"3.5"` still produces a record (with fractional line 7/2). -/
theorem C1_counterexample :
    createComment ⟨some "a.ts", []⟩ [{ lineNumber := "3.5", reviewComment := "c" }] =
      [{ body := "c", path := "a.ts", line := mkRat 7 2 }] ∧
    jsToNumber "3.5" = some (mkRat 7 2) ∧ (mkRat 7 2).den ≠ 1 := by
  refine ⟨by decide, by decide, by decide⟩

/-- The user prompt depends on the file only through its target path, so
the file's chunk list may be replaced freely. -/
theorem createUserPrompt_chunks_irrel (maxChars : ℤ) (fto : Option String)
    (l1 l2 : List DiffChunk) (c : DiffChunk) (pr : PRDetails) :
    createUserPrompt maxChars ⟨fto, l1⟩ c pr = createUserPrompt maxChars ⟨fto, l2⟩ c pr := rfl

theorem analyzeChunks_chunks_irrel
    (completions : String → String → Except Unit (Option String))
    (parse : String → Option JValue) (decode : JValue → ReviewItem)
    (maxChars : ℤ) (sys : String) (pr : PRDetails) (fto : Option String)
    (l1 l2 : List DiffChunk) (L : List DiffChunk) :
    analyzeChunks completions parse decode maxChars sys pr ⟨fto, l1⟩ L =
    analyzeChunks completions parse decode maxChars sys pr ⟨fto, l2⟩ L := by
  induction L with
  | nil => rfl
  | cons ch rest ih =>
      show _ ++ _ = _ ++ _
      rw [ih]
      rfl

/-- A chunk whose review comes back `null` contributes nothing, and the
rest of the chunk loop is unaffected. -/
theorem analyzeChunks_skip
    (completions : String → String → Except Unit (Option String))
    (parse : String → Option JValue) (decode : JValue → ReviewItem)
    (maxChars : ℤ) (sys : String) (pr : PRDetails) (file : DiffFile)
    (cs1 : List DiffChunk) (ch : DiffChunk) (cs2 : List DiffChunk)
    (h : (getAIResponse completions parse decode sys
            (createUserPrompt maxChars file ch pr)).1 = none) :
    analyzeChunks completions parse decode maxChars sys pr file (cs1 ++ ch :: cs2) =
    analyzeChunks completions parse decode maxChars sys pr file (cs1 ++ cs2) := by
  induction cs1 with
  | nil =>
      show (match (getAIResponse completions parse decode sys
              (createUserPrompt maxChars file ch pr)).1 with
            | none => ([] : List CommentRecord)
            | some aiResponse => createComment file aiResponse) ++ _ = _
      rw [h]
      rfl
  | cons x xs ih =>
      show _ ++ _ = _ ++ _
      simp only [List.append_eq]
      rw [ih]

/-- **C7.**  For every parsed diff, a DiffFile whose targetPath equals
`"/dev/null"` contributes zero CommentRecords to the aggregated comment
list, regardless of its chunks' content and of what the model returns. -/
theorem C7_devnull_contributes_nothing
    (completions : String → String → Except Unit (Option String))
    (parse : String → Option JValue) (decode : JValue → ReviewItem)
    (maxChars : ℤ) (prDetails : PRDetails) (rules : RulesBundle)
    (files1 files2 : List DiffFile) (f : DiffFile) (hf : f.to = some "/dev/null") :
    analyzeCode completions parse decode maxChars (files1 ++ f :: files2) prDetails rules =
    analyzeCode completions parse decode maxChars (files1 ++ files2) prDetails rules := by
  unfold analyzeCode
  induction files1 with
  | nil => simp [analyzeFiles, hf]
  | cons g gs ih => simp only [List.cons_append, analyzeFiles, List.append_eq, ih]

/-- Witness for C7: a deleted file with a nonempty chunk contributes
nothing even though the (modelled) completion call would return a valid
review for it. -/
theorem C7_witness :
    analyzeCode (fun _ _ => Except.ok (some "r"))
        (fun _ => some (JValue.obj [("reviews",
          JValue.arr [JValue.obj [("lineNumber", JValue.str "1"),
            ("reviewComment", JValue.str "좋지 않音")]])]))
        (fun _ => ⟨"1", "고치세요"⟩) 1500
        ([] ++ (⟨some "/dev/null", [⟨"@@ -1 +1 @@", [⟨some 1, none, "+x"⟩]⟩]⟩ : DiffFile) :: [])
        ⟨"o", "r", 1, "t", "d"⟩ ⟨"공통", "레포"⟩ =
    analyzeCode (fun _ _ => Except.ok (some "r"))
        (fun _ => some (JValue.obj [("reviews",
          JValue.arr [JValue.obj [("lineNumber", JValue.str "1"),
            ("reviewComment", JValue.str "좋지 않音")]])]))
        (fun _ => ⟨"1", "고치세요"⟩) 1500 ([] ++ [])
        ⟨"o", "r", 1, "t", "d"⟩ ⟨"공통", "레포"⟩ :=
  C7_devnull_contributes_nothing _ _ _ 1500 ⟨"o", "r", 1, "t", "d"⟩ ⟨"공통", "레포"⟩
    [] [] ⟨some "/dev/null", [⟨"@@ -1 +1 @@", [⟨some 1, none, "+x"⟩]⟩]⟩ rfl

/-- **C6.**  Any exception raised by either model call inside
`getAIResponse` is caught and `getAIResponse` returns `null`; in the
orchestrating loop a `null` result for one chunk contributes zero
CommentRecords and the iteration over the remaining chunks and files
continues unchanged. -/
theorem C6_errors_caught_loop_continues
    (completions : String → String → Except Unit (Option String))
    (parse : String → Option JValue) (decode : JValue → ReviewItem)
    (maxChars : ℤ) (prDetails : PRDetails) (rules : RulesBundle) :
    (∀ sys user, callOpenAIOnce completions parse decode sys user = .error () →
      getAIResponse completions parse decode sys user = (none, [(sys, user)])) ∧
    (∀ sys user reviews1,
      callOpenAIOnce completions parse decode sys user = .ok reviews1 →
      allKoreanOrEmpty reviews1 = false →
      callOpenAIOnce completions parse decode (sys ++ stricterSuffix) user = .error () →
      getAIResponse completions parse decode sys user =
        (none, [(sys, user), (sys ++ stricterSuffix, user)])) ∧
    (∀ (files1 files2 : List DiffFile) (fto : Option String)
        (cs1 : List DiffChunk) (ch : DiffChunk) (cs2 : List DiffChunk),
      (getAIResponse completions parse decode (createSystemPrompt rules)
          (createUserPrompt maxChars ⟨fto, cs1 ++ ch :: cs2⟩ ch prDetails)).1 = none →
      analyzeCode completions parse decode maxChars
          (files1 ++ (⟨fto, cs1 ++ ch :: cs2⟩ : DiffFile) :: files2) prDetails rules =
      analyzeCode completions parse decode maxChars
          (files1 ++ (⟨fto, cs1 ++ cs2⟩ : DiffFile) :: files2) prDetails rules) := by
  refine ⟨?_, ?_, ?_⟩
  · intro sys user h
    unfold getAIResponse
    rw [h]
  · intro sys user reviews1 h1 hko h2
    unfold getAIResponse
    rw [h1]
    simp only [hko, Bool.false_eq_true, if_false]
    rw [h2]
  · intro files1 files2 fto cs1 ch cs2 h
    unfold analyzeCode
    induction files1 with
    | nil =>
        simp only [List.nil_append, analyzeFiles]
        by_cases hdev : fto = some "/dev/null"
        · simp [hdev]
        · rw [if_neg (by simpa using hdev), if_neg (by simpa using hdev)]
          congr 1
          rw [analyzeChunks_chunks_irrel completions parse decode maxChars _ prDetails fto
            (cs1 ++ ch :: cs2) (cs1 ++ cs2) (cs1 ++ ch :: cs2)]
          exact analyzeChunks_skip completions parse decode maxChars _ prDetails
            ⟨fto, cs1 ++ cs2⟩ cs1 ch cs2 h
    | cons g gs ih => simp only [List.cons_append, analyzeFiles, List.append_eq, ih]

/-- Witness for C6: an always-throwing completion call yields `null` for
the chunk and the surrounding run is unchanged; a completion that throws
only on the retry also yields `null`. -/
theorem C6_witness :
    getAIResponse (fun _ _ => Except.error ()) (fun _ => none) (fun _ => ⟨"", ""⟩)
        "s" "u" = (none, [("s", "u")]) ∧
    getAIResponse
        (fun sys _ => if sys = "s" then Except.ok (some "r") else Except.error ())
        (fun raw => if raw = "r" then
           some (JValue.obj [("reviews", JValue.arr [JValue.null])]) else none)
        (fun _ => ⟨"1", "english"⟩) "s" "u" =
      (none, [("s", "u"), ("s" ++ stricterSuffix, "u")]) ∧
    analyzeCode (fun _ _ => Except.error ()) (fun _ => none) (fun _ => ⟨"", ""⟩) 1500
        ([] ++ (⟨some "a.ts", [] ++ (⟨"@@", []⟩ : DiffChunk) :: []⟩ : DiffFile) :: [])
        ⟨"o", "r", 1, "t", "d"⟩ ⟨"공통", ""⟩ =
    analyzeCode (fun _ _ => Except.error ()) (fun _ => none) (fun _ => ⟨"", ""⟩) 1500
        ([] ++ (⟨some "a.ts", ([] ++ [] : List DiffChunk)⟩ : DiffFile) :: [])
        ⟨"o", "r", 1, "t", "d"⟩ ⟨"공통", ""⟩ :=
  ⟨(C6_errors_caught_loop_continues (fun _ _ => Except.error ()) (fun _ => none)
      (fun _ => ⟨"", ""⟩) 1500 ⟨"o", "r", 1, "t", "d"⟩ ⟨"공통", ""⟩).1 "s" "u" rfl,
   (C6_errors_caught_loop_continues
      (fun sys _ => if sys = "s" then Except.ok (some "r") else Except.error ())
      (fun raw => if raw = "r" then
         some (JValue.obj [("reviews", JValue.arr [JValue.null])]) else none)
      (fun _ => ⟨"1", "english"⟩) 1500 ⟨"o", "r", 1, "t", "d"⟩ ⟨"공통", ""⟩).2.1
      "s" "u" [⟨"1", "english"⟩] rfl (by decide) rfl,
   (C6_errors_caught_loop_continues (fun _ _ => Except.error ()) (fun _ => none)
      (fun _ => ⟨"", ""⟩) 1500 ⟨"o", "r", 1, "t", "d"⟩ ⟨"공통", ""⟩).2.2
      [] [] (some "a.ts") [] ⟨"@@", []⟩ [] rfl⟩

/-- **C5.**  For every raw response string, if JSON parsing fails (the
parser model returns `none`, standing for a thrown `SyntaxError`) or the
parsed value's `reviews` field is not an array, the review-parsing step
yields an empty list; `safeParseReviews` is a total function, so no parse
exception ever propagates to its caller and the run proceeds to the next
chunk (see C6 for the loop). -/
theorem C5_safeParseReviews_empty (parse : String → Option JValue)
    (decode : JValue → ReviewItem) (raw : String) :
    (parse raw = none → safeParseReviews parse decode raw = []) ∧
    (∀ v, parse raw = some v → (∀ xs, jsGet v "reviews" ≠ JValue.arr xs) →
      safeParseReviews parse decode raw = []) := by
  constructor
  · intro h
    unfold safeParseReviews
    rw [h]
  · intro v hv harr
    unfold safeParseReviews
    rw [hv]
    cases hg : jsGet v "reviews"
    case arr xs => exact absurd hg (harr xs)
    all_goals simp only [hg]

/-- Witness for C5: a failing parse and a non-array `reviews` field both
yield the empty list. -/
theorem C5_witness :
    safeParseReviews (fun _ => none) (fun _ => ⟨"", ""⟩) "not json" = [] ∧
    safeParseReviews (fun _ => some (JValue.obj [("reviews", JValue.str "x")]))
      (fun _ => ⟨"", ""⟩) "r" = [] :=
  ⟨(C5_safeParseReviews_empty (fun _ => none) (fun _ => ⟨"", ""⟩) "not json").1 rfl,
   (C5_safeParseReviews_empty (fun _ => some (JValue.obj [("reviews", JValue.str "x")]))
      (fun _ => ⟨"", ""⟩) "r").2 (JValue.obj [("reviews", JValue.str "x")]) rfl
      (fun _ h => JValue.noConfusion h)⟩

/-- **C9.**  For every list of ReviewItems, an item whose reviewComment
consists only of whitespace characters (in particular one that is not
merely the empty string) is treated as compliant by the language check —
the comment is trimmed before testing — so such items alone never trigger
the stricter retry call: one model call is made and its result returned. -/
theorem C9_whitespace_compliant
    (completions : String → String → Except Unit (Option String))
    (parse : String → Option JValue) (decode : JValue → ReviewItem)
    (sys user : String) (reviews1 : List ReviewItem)
    (h1 : callOpenAIOnce completions parse decode sys user = .ok reviews1)
    (h2 : ∀ r ∈ reviews1, jsTrim r.reviewComment = "") :
    allKoreanOrEmpty reviews1 = true ∧
    getAIResponse completions parse decode sys user = (some reviews1, [(sys, user)]) := by
  have hall : allKoreanOrEmpty reviews1 = true :=
    (allKoreanOrEmpty_eq_true_iff reviews1).mpr (fun r hr => Or.inl (h2 r hr))
  refine ⟨hall, ?_⟩
  unfold getAIResponse
  simp only [h1, hall, if_true]

/-- Witness for C9: a comment consisting of a space and a tab — non-empty
but whitespace-only — is compliant and no retry happens. -/
theorem C9_witness :
    allKoreanOrEmpty [⟨"1", " \t"⟩] = true ∧
    getAIResponse (fun _ _ => Except.ok (some "r"))
        (fun _ => some (JValue.obj [("reviews", JValue.arr [JValue.null])]))
        (fun _ => ⟨"1", " \t"⟩) "s" "u" = (some [⟨"1", " \t"⟩], [("s", "u")]) :=
  C9_whitespace_compliant (fun _ _ => Except.ok (some "r"))
    (fun _ => some (JValue.obj [("reviews", JValue.arr [JValue.null])]))
    (fun _ => ⟨"1", " \t"⟩) "s" "u" [⟨"1", " \t"⟩] rfl (by decide)

/-- **C2 (amended).**  For every pair of prompts, if the first model
response parses to a review list containing at least one reviewComment
that is non-empty after trimming and has zero Hangul characters, then
`getAIResponse` makes exactly one additional model call (total call count
two) whose system prompt is the original system prompt with the stricter
no-other-language clause appended and whose user prompt is unchanged, and
it returns the second call's parsed result unconditionally — even if that
result still fails the language check; if the first response is
compliant, exactly one call is made and its result returned.  (Amended
from the claim: the source trims each comment before testing, so a
whitespace-only — non-empty — comment does not trigger the retry; see
`C2_counterexample`.) -/
theorem C2_retry_once
    (completions : String → String → Except Unit (Option String))
    (parse : String → Option JValue) (decode : JValue → ReviewItem)
    (sys user : String) (reviews1 : List ReviewItem)
    (h1 : callOpenAIOnce completions parse decode sys user = .ok reviews1) :
    ((∃ r ∈ reviews1, jsTrim r.reviewComment ≠ "" ∧ hasHangul r.reviewComment = false) →
      getAIResponse completions parse decode sys user =
        ((match callOpenAIOnce completions parse decode (sys ++ stricterSuffix) user with
          | .ok reviews2 => some reviews2
          | .error _ => none),
         [(sys, user), (sys ++ stricterSuffix, user)])) ∧
    ((∀ r ∈ reviews1, jsTrim r.reviewComment = "" ∨ hasHangul r.reviewComment = true) →
      getAIResponse completions parse decode sys user = (some reviews1, [(sys, user)])) := by
  constructor
  · intro hbad
    have hko : allKoreanOrEmpty reviews1 = false :=
      (allKoreanOrEmpty_eq_false_iff reviews1).mpr hbad
    unfold getAIResponse
    simp only [h1, hko, Bool.false_eq_true, if_false]
    cases h2 : callOpenAIOnce completions parse decode (sys ++ stricterSuffix) user <;>
      simp only [h2]
  · intro hok
    have hall : allKoreanOrEmpty reviews1 = true :=
      (allKoreanOrEmpty_eq_true_iff reviews1).mpr hok
    unfold getAIResponse
    simp only [h1, hall, if_true]

/-- Witness for C2: a first response with the English-only comment
triggers exactly one retry with the stricter system prompt, whose result
(still non-compliant) is returned unconditionally. -/
theorem C2_witness :
    getAIResponse
        (fun sys _ => if sys = "s" then Except.ok (some "r1") else Except.ok (some "r2"))
        (fun raw => if raw = "r1" then
           some (JValue.obj [("reviews", JValue.arr [JValue.null])])
         else some (JValue.obj [("reviews", JValue.arr [JValue.null, JValue.null])]))
        (fun _ => ⟨"1", "english"⟩) "s" "u" =
      (some [⟨"1", "english"⟩, ⟨"1", "english"⟩],
       [("s", "u"), ("s" ++ stricterSuffix, "u")]) :=
  ((C2_retry_once
      (fun sys _ => if sys = "s" then Except.ok (some "r1") else Except.ok (some "r2"))
      (fun raw => if raw = "r1" then
         some (JValue.obj [("reviews", JValue.arr [JValue.null])])
       else some (JValue.obj [("reviews", JValue.arr [JValue.null, JValue.null])]))
      (fun _ => ⟨"1", "english"⟩) "s" "u" [⟨"1", "english"⟩] rfl).1
    ⟨⟨"1", "english"⟩, by simp, by decide, by decide⟩).trans rfl

/-- **C2 counterexample.**  The claim as frozen says any *non-empty*
reviewComment with zero Hangul characters triggers the retry; the source
trims first, so a whitespace-only comment — non-empty, zero Hangul —
does not: exactly one call is made. -/
theorem C2_counterexample :
    callOpenAIOnce (fun _ _ => Except.ok (some "w"))
        (fun _ => some (JValue.obj [("reviews", JValue.arr [JValue.null])]))
        (fun _ => ⟨"1", " "⟩) "s" "u" = .ok [⟨"1", " "⟩] ∧
    (" " ≠ "" ∧ hasHangul " " = false) ∧
    (getAIResponse (fun _ _ => Except.ok (some "w"))
        (fun _ => some (JValue.obj [("reviews", JValue.arr [JValue.null])]))
        (fun _ => ⟨"1", " "⟩) "s" "u").2 = [("s", "u")] :=
  ⟨rfl, ⟨by decide, by decide⟩, rfl⟩

/-- **C8.**  For every parsed diff and every configured exclusion pattern
list, the filtered file list contains exactly those DiffFiles whose
targetPath is present (the source's truthiness test: non-null and
non-empty) and matches none of the exclusion globs; exclusion `"*.md"`
removes `"README.md"` but retains `"src/app.ts"`, and a file with no
target path is absent even when no patterns are configured. -/
theorem C8_filteredDiff_spec (excludePatterns : List String)
    (parsedDiff : List DiffFile) (f : DiffFile) :
    (f ∈ filteredDiff excludePatterns parsedDiff ↔
      f ∈ parsedDiff ∧ f.to.getD "" ≠ "" ∧
        ∀ p ∈ excludePatterns, minimatch (f.to.getD "") p = false) ∧
    (filteredDiff ["*.md"]
        [⟨some "README.md", []⟩, ⟨some "src/app.ts", []⟩] =
      [⟨some "src/app.ts", []⟩]) ∧
    (filteredDiff [] [⟨none, []⟩] = []) := by
  refine ⟨?_, ?_, ?_⟩
  · unfold filteredDiff
    rw [List.mem_filter]
    constructor
    · rintro ⟨hin, hb⟩
      by_cases he : f.to.getD "" = ""
      · rw [if_pos he] at hb
        cases hb
      · rw [if_neg he] at hb
        refine ⟨hin, he, fun p hp => ?_⟩
        have hany : excludePatterns.any
            (fun pattern => minimatch (f.to.getD "") pattern) = false := by
          cases hx : excludePatterns.any (fun pattern => minimatch (f.to.getD "") pattern)
          · rfl
          · rw [hx] at hb
            cases hb
        have := List.any_eq_false.mp hany p hp
        simpa using this
    · rintro ⟨hin, he, hall⟩
      refine ⟨hin, ?_⟩
      rw [if_neg he]
      have hany : excludePatterns.any
          (fun pattern => minimatch (f.to.getD "") pattern) = false :=
        List.any_eq_false.mpr (fun x hx => by simp [hall x hx])
      simp [hany]
  · simp [filteredDiff, minimatch, globMatch]
  · simp [filteredDiff]

/-- Witness for C8 at a concrete diff: the markdown file is excluded, the
TypeScript file retained. -/
theorem C8_witness :
    ((⟨some "src/app.ts", []⟩ : DiffFile) ∈
        filteredDiff ["*.md"] [⟨some "README.md", []⟩, ⟨some "src/app.ts", []⟩] ↔
      (⟨some "src/app.ts", []⟩ : DiffFile) ∈
          ([⟨some "README.md", []⟩, ⟨some "src/app.ts", []⟩] : List DiffFile) ∧
        (some "src/app.ts" : Option String).getD "" ≠ "" ∧
        ∀ p ∈ ["*.md"], minimatch ((some "src/app.ts" : Option String).getD "") p = false) :=
  (C8_filteredDiff_spec ["*.md"] [⟨some "README.md", []⟩, ⟨some "src/app.ts", []⟩]
    ⟨some "src/app.ts", []⟩).1

theorem data_empty_str : ("" : String).data = [] := rfl

set_option maxRecDepth 40000

/-- **C4.**  For every RuleBundle whose repoRules is empty or
whitespace-only, the system prompt contains the common-rules-only
statement and contains no repo-rules block; for every RuleBundle whose
repoRules is non-empty, the system prompt contains exactly one repo-rules
block and the override-precedence statement.  A "repo-rules block" is
identified by its header line `[레포 특화 규칙]`; the hypotheses say the
two rules documents do not themselves contain that header (otherwise the
prompt would textually repeat it inside the quoted rules). -/
theorem C4_system_prompt_blocks (rules : RulesBundle)
    (hc : countOcc repoHeader.data rules.commonRules.data = 0)
    (hr : countOcc repoHeader.data (jsTrim rules.repoRules).data = 0) :
    (jsTrim rules.repoRules = "" →
      countOcc repoHeader.data (createSystemPrompt rules).data = 0 ∧
      prioCommonOnly.data <:+: (createSystemPrompt rules).data) ∧
    (jsTrim rules.repoRules ≠ "" →
      countOcc repoHeader.data (createSystemPrompt rules).data = 1 ∧
      prioOverride.data <:+: (createSystemPrompt rules).data) := by
  have hc' : countOcc repoHeader.data
      (if rules.commonRules = "" then "(none)" else rules.commonRules).data = 0 := by
    by_cases hce : rules.commonRules = ""
    · rw [if_pos hce]
      decide
    · rw [if_neg hce]
      exact hc
  constructor
  · intro h
    have hrb : (rules.repoRules ≠ "" && jsTrim rules.repoRules ≠ "") = false := by
      simp [h]
    have hPs : createSystemPrompt rules =
        sysPre ++ prioCommonOnly ++ sysMid ++
        (if rules.commonRules = "" then "(none)" else rules.commonRules) ++
        "\n---\n" ++ "" ++ sysPost := by
      unfold createSystemPrompt
      simp only [hrb, Bool.false_eq_true, if_false]
    have hPdata : (createSystemPrompt rules).data =
        (sysPre.data ++ prioCommonOnly.data ++ sysMid.data) ++
        ((if rules.commonRules = "" then "(none)" else rules.commonRules).data ++
         ("\n---\n" ++ sysPost).data) := by
      rw [hPs]
      simp [String.data_append, data_empty_str, List.append_assoc]
    constructor
    · have e1 := countOcc_append_of_noStraddle repoHeader.data
          ((if rules.commonRules = "" then "(none)" else rules.commonRules).data ++
           ("\n---\n" ++ sysPost).data)
          (sysPre.data ++ prioCommonOnly.data ++ sysMid.data) (by decide)
      have e2 := countOcc_append_of_head_notin repoHeader.data
          (if rules.commonRules = "" then "(none)" else rules.commonRules).data
          ("\n---\n" ++ sysPost).data '\n' (by decide) (by decide)
      rw [hPdata, e1, e2, hc']
      decide
    · rw [hPdata]
      exact ⟨sysPre.data, sysMid.data ++
        ((if rules.commonRules = "" then "(none)" else rules.commonRules).data ++
         ("\n---\n" ++ sysPost).data), by simp [List.append_assoc]⟩
  · intro h
    have hre : rules.repoRules ≠ "" := by
      intro hemp
      rw [hemp] at h
      exact h rfl
    have hrb : (rules.repoRules ≠ "" && jsTrim rules.repoRules ≠ "") = true := by
      simp [h, hre]
    have hPs : createSystemPrompt rules =
        sysPre ++ prioOverride ++ sysMid ++
        (if rules.commonRules = "" then "(none)" else rules.commonRules) ++
        "\n---\n" ++ ("\n" ++ repoHeader ++ "\n---\n" ++ jsTrim rules.repoRules ++ "\n---\n") ++
        sysPost := by
      unfold createSystemPrompt
      simp only [hrb, if_true]
    have hPdata : (createSystemPrompt rules).data =
        (sysPre.data ++ prioOverride.data ++ sysMid.data) ++
        ((if rules.commonRules = "" then "(none)" else rules.commonRules).data ++
         (("\n---\n" ++ "\n" ++ repoHeader ++ "\n---\n").data ++
          ((jsTrim rules.repoRules).data ++ ("\n---\n" ++ sysPost).data))) := by
      rw [hPs]
      simp [String.data_append, List.append_assoc]
    constructor
    · have e1 := countOcc_append_of_noStraddle repoHeader.data
          ((if rules.commonRules = "" then "(none)" else rules.commonRules).data ++
           (("\n---\n" ++ "\n" ++ repoHeader ++ "\n---\n").data ++
            ((jsTrim rules.repoRules).data ++ ("\n---\n" ++ sysPost).data)))
          (sysPre.data ++ prioOverride.data ++ sysMid.data) (by decide)
      have e2 := countOcc_append_of_head_notin repoHeader.data
          (if rules.commonRules = "" then "(none)" else rules.commonRules).data
          (("\n---\n" ++ "\n" ++ repoHeader ++ "\n---\n").data ++
           ((jsTrim rules.repoRules).data ++ ("\n---\n" ++ sysPost).data))
          '\n' (by rfl) (by decide)
      have e3 := countOcc_append_of_noStraddle repoHeader.data
          ((jsTrim rules.repoRules).data ++ ("\n---\n" ++ sysPost).data)
          ("\n---\n" ++ "\n" ++ repoHeader ++ "\n---\n").data (by decide)
      have e4 := countOcc_append_of_head_notin repoHeader.data
          (jsTrim rules.repoRules).data ("\n---\n" ++ sysPost).data
          '\n' (by decide) (by decide)
      rw [hPdata, e1, e2, e3, e4, hc', hr]
      decide
    · rw [hPdata]
      exact ⟨sysPre.data, sysMid.data ++
        ((if rules.commonRules = "" then "(none)" else rules.commonRules).data ++
         (("\n---\n" ++ "\n" ++ repoHeader ++ "\n---\n").data ++
          ((jsTrim rules.repoRules).data ++ ("\n---\n" ++ sysPost).data))),
        by simp [List.append_assoc]⟩

/-- Witness for C4: a bundle with non-empty repo rules yields exactly one
repo-rules block and the override statement; one with whitespace-only
repo rules yields none and the common-only statement. -/
theorem C4_witness :
    (countOcc repoHeader.data (createSystemPrompt ⟨"규칙 하나", "레포 전용"⟩).data = 1 ∧
      prioOverride.data <:+: (createSystemPrompt ⟨"규칙 하나", "레포 전용"⟩).data) ∧
    (countOcc repoHeader.data (createSystemPrompt ⟨"규칙 하나", " "⟩).data = 0 ∧
      prioCommonOnly.data <:+: (createSystemPrompt ⟨"규칙 하나", " "⟩).data) :=
  ⟨(C4_system_prompt_blocks ⟨"규칙 하나", "레포 전용"⟩ (by decide) (by decide)).2
      (by decide),
   (C4_system_prompt_blocks ⟨"규칙 하나", " "⟩ (by decide) (by decide)).1
      (by decide)⟩
